import Mathlib

/-!
Verification of the instruction-dependency analyzer
(`src/instruction_dependency.hpp`): a shallow embedding of the
`Dependency_Identifier` class — its tokenizer, opcode table, operand
classification and the three pairwise hazard scans (RAW, WAR, WAW) —
together with proofs of the specified properties.

Strings are modelled as `List Char`; the empty list plays the role of the
C++ empty string `""` that the code uses to signal "no destination".
-/

/-- A C++ `std::string`, modelled as its character sequence. -/
abbrev Str := List Char

/-- Membership in the whitespace set `" \t\n\r"` used by the C++ `trim`
helper (its `find_first_not_of` / `find_last_not_of` argument). -/
def isTrimChar (c : Char) : Bool :=
  c = ' ' || c = '\t' || c = '\n' || c = '\r'

/-- Embedding of the C++ `trim` helper: if every character is in
`" \t\n\r"` the string is returned unchanged (the `npos` branch),
otherwise the maximal prefix and suffix of such characters are removed. -/
def trim (s : Str) : Str :=
  if (s.dropWhile isTrimChar).isEmpty then s
  else ((s.dropWhile isTrimChar).reverse.dropWhile isTrimChar).reverse

/-- `std::toupper` in the C locale: maps `'a'`–`'z'` to upper case,
leaves every other character unchanged. -/
def to_upper_char (c : Char) : Char :=
  if 'a' ≤ c ∧ c ≤ 'z' then Char.ofNat (c.toNat - 32) else c

/-- Embedding of the C++ `to_upper` helper. -/
def to_upper (s : Str) : Str := s.map to_upper_char

/-- The whitespace classification used by `operator>>` on a
`std::stringstream` in the classic locale. -/
def cppIsSpace (c : Char) : Bool :=
  c = ' ' || c = '\t' || c = '\n' || c = '\x0b' || c = '\x0c' || c = '\r'

/-- The four delimiter characters that `parse_instruction` replaces by
a space. -/
def isDelim (c : Char) : Bool :=
  c = ',' || c = ';' || c = '(' || c = ')'

/-- The four `std::replace` calls of `parse_instruction`. -/
def replaceDelims (s : Str) : Str :=
  s.map (fun c => if isDelim c then ' ' else c)

/-- The extraction loop `while (ss >> part)`: splits on runs of
whitespace, producing the non-empty maximal runs of non-whitespace
characters.  `acc` is the (reversed) token being accumulated. -/
def splitWsAux : Str → Str → List Str
  | [], acc => if acc.isEmpty then [] else [acc.reverse]
  | c :: rest, acc =>
    if cppIsSpace c then
      if acc.isEmpty then splitWsAux rest []
      else acc.reverse :: splitWsAux rest []
    else splitWsAux rest (c :: acc)

/-- Whitespace splitting of a whole string. -/
def splitWs (s : Str) : List Str := splitWsAux s []

/-- Embedding of `Dependency_Identifier::parse_instruction`: replace the
four delimiters by spaces, split on whitespace, `trim` each part. -/
def parse_instruction (instruction : Str) : List Str :=
  (splitWs (replaceDelims instruction)).map trim

/-- The `operand_map` built in the `Dependency_Identifier` constructor:
opcode → (destination token index, source token indices).  A destination
index of `0` means the instruction writes no register.  Only `find` is
ever applied to the C++ `std::map`, so a lookup function is a faithful
embedding. -/
def operand_map (op : Str) : Option (Nat × List Nat) :=
  if op = "ADD".data then some (1, [2, 3])
  else if op = "ADDI".data then some (1, [2])
  else if op = "SUB".data then some (1, [2, 3])
  else if op = "MUL".data then some (1, [2, 3])
  else if op = "DIV".data then some (1, [2, 3])
  else if op = "LD".data then some (1, [])
  else if op = "SD".data then some (0, [1, 3])
  else if op = "DADD".data then some (1, [2, 3])
  else if op = "DADDI".data then some (1, [2])
  else if op = "DSUB".data then some (1, [2, 3])
  else if op = "DMUL".data then some (1, [2, 3])
  else if op = "DDIV".data then some (1, [2, 3])
  else if op = "SLT".data then some (1, [2, 3])
  else if op = "SGT".data then some (1, [2, 3])
  else if op = "BEQ".data then some (0, [1, 2])
  else if op = "BNE".data then some (0, [1, 2])
  else if op = "BLTZ".data then some (0, [1, 2])
  else if op = "BGTZ".data then some (0, [1, 2])
  else if op = "BGEZ".data then some (0, [1, 2])
  else if op = "BLEZ".data then some (0, [1, 2])
  else none

/-- The state of a `Dependency_Identifier` object: the raw instruction
strings and the parsed token sequences.  (The opcode table is the same
for every instance, so it is the global `operand_map` above.) -/
structure Dependency_Identifier where
  _instructions : List Str
  parsed_instructions : List (List Str)
deriving DecidableEq

/-- The constructor: store the instructions and parse each one. -/
def Dependency_Identifier.init (instructions : List Str) : Dependency_Identifier :=
  { _instructions := instructions
    parsed_instructions := instructions.map parse_instruction }

/-- The body of `get_destination_register` once the token sequence of the
instruction is in hand (`instruction_parts` in the C++): empty token
list → `""`; unknown opcode → `""`; destination index `0` or out of
bounds → `""`; otherwise the token at the destination index. -/
def dest_of_parts (parts : List Str) : Str :=
  if parts.isEmpty then []
  else
    match operand_map (to_upper (parts.getD 0 [])) with
    | some (dest_index, _) =>
      if 0 < dest_index ∧ dest_index < parts.length then parts.getD dest_index []
      else []
    | none => []

/-- Embedding of `Dependency_Identifier::get_destination_register`. -/
def get_destination_register (d : Dependency_Identifier) (index : Nat) : Str :=
  match d.parsed_instructions.get? index with
  | none => []
  | some parts => dest_of_parts parts

/-- The body of `get_source_registers` once the token sequence is in
hand: for each configured source index that is positive and in bounds,
the token at that index, in the table's declared order. -/
def src_of_parts (parts : List Str) : List Str :=
  if parts.isEmpty then []
  else
    match operand_map (to_upper (parts.getD 0 [])) with
    | some (_, source_indices) =>
      source_indices.filterMap (fun k =>
        if 0 < k ∧ k < parts.length then some (parts.getD k []) else none)
    | none => []

/-- Embedding of `Dependency_Identifier::get_source_registers`. -/
def get_source_registers (d : Dependency_Identifier) (index : Nat) : List Str :=
  match d.parsed_instructions.get? index with
  | none => []
  | some parts => src_of_parts parts

/-- One reported dependency: earlier instruction index, later
instruction index, the register involved. -/
structure DepRecord where
  earlier : Nat
  later : Nat
  reg : Str
deriving DecidableEq

/-- What one scan prints, structurally: whether the
`"No instructions to analyze."` message was emitted, and the sequence of
dependency records, in emission order. -/
structure ScanOutput where
  no_instructions_msg : Bool
  records : List DepRecord
deriving DecidableEq

/-- `parsed_instructions.size()`. -/
def numInsts (d : Dependency_Identifier) : Nat := d.parsed_instructions.length

/-- The nested loops of `find_RAW_dependencies`: for each `i`, skip if
its destination is empty; otherwise for each `j` from `i+1`, emit one
record per source register of `j` equal to that destination. -/
def RAW_records (d : Dependency_Identifier) : List DepRecord :=
  (List.range (numInsts d)).flatMap (fun i =>
    let dest_reg := get_destination_register d i
    if dest_reg.isEmpty then []
    else
      (List.range' (i + 1) (numInsts d - (i + 1))).flatMap (fun j =>
        (get_source_registers d j).filterMap (fun src_reg =>
          if src_reg = dest_reg then some ⟨i, j, dest_reg⟩ else none)))

/-- Embedding of `find_RAW_dependencies`, with the early-return
`"No instructions to analyze."` branch. -/
def find_RAW_dependencies (d : Dependency_Identifier) : ScanOutput :=
  if d.parsed_instructions.isEmpty then ⟨true, []⟩
  else ⟨false, RAW_records d⟩

/-- The nested loops of `find_WAR_dependencies`: for each `i`, skip if it
has no source registers; for each `j` from `i+1` with a non-empty
destination, emit one record per source register of `i` equal to that
destination. -/
def WAR_records (d : Dependency_Identifier) : List DepRecord :=
  (List.range (numInsts d)).flatMap (fun i =>
    let src_regs_i := get_source_registers d i
    if src_regs_i.isEmpty then []
    else
      (List.range' (i + 1) (numInsts d - (i + 1))).flatMap (fun j =>
        let dest_reg_j := get_destination_register d j
        if dest_reg_j.isEmpty then []
        else
          src_regs_i.filterMap (fun src_reg =>
            if src_reg = dest_reg_j then some ⟨i, j, src_reg⟩ else none)))

/-- Embedding of `find_WAR_dependencies`. -/
def find_WAR_dependencies (d : Dependency_Identifier) : ScanOutput :=
  if d.parsed_instructions.isEmpty then ⟨true, []⟩
  else ⟨false, WAR_records d⟩

/-- The nested loops of `find_WAW_dependencies`: for each `i` with a
non-empty destination, for each `j` from `i+1`, emit a record when the
destination of `j` equals that of `i` (no separate emptiness test on
`j`'s destination: a non-empty string never equals the empty one). -/
def WAW_records (d : Dependency_Identifier) : List DepRecord :=
  (List.range (numInsts d)).flatMap (fun i =>
    let dest_reg_i := get_destination_register d i
    if dest_reg_i.isEmpty then []
    else
      (List.range' (i + 1) (numInsts d - (i + 1))).flatMap (fun j =>
        let dest_reg_j := get_destination_register d j
        if dest_reg_i = dest_reg_j then [⟨i, j, dest_reg_i⟩] else []))

/-- Embedding of `find_WAW_dependencies`. -/
def find_WAW_dependencies (d : Dependency_Identifier) : ScanOutput :=
  if d.parsed_instructions.isEmpty then ⟨true, []⟩
  else ⟨false, WAW_records d⟩

/-! ### Specification-side descriptions of the three scans

Each `..._spec` definition transcribes the specification's wording for
one hazard kind: all pairs `(i, j)` with `i < j` in ascending `i`, then
ascending `j`, then slot-declaration order, with presence of a
destination rendered as the register string being non-empty. -/

/-- The RAW relation as the specification states it: a record `(i, j, r)`
exactly when `i < j`, the destination of `i` is present and equals `r`,
and `r` occupies a configured source slot of `j`, one record per
matching slot. -/
def RAW_spec (d : Dependency_Identifier) : List DepRecord :=
  (List.range (numInsts d)).flatMap (fun i =>
    (List.range (numInsts d)).flatMap (fun j =>
      if i < j then
        (get_source_registers d j).filterMap (fun r =>
          if get_destination_register d i ≠ [] ∧ r = get_destination_register d i
          then some ⟨i, j, r⟩ else none)
      else []))

/-- The WAR relation as the specification states it: a record `(i, j, r)`
exactly when `i < j`, `r` is among the source registers of `i`, and `j`
has a present destination equal to `r`, one record per matching source
slot of `i`. -/
def WAR_spec (d : Dependency_Identifier) : List DepRecord :=
  (List.range (numInsts d)).flatMap (fun i =>
    (List.range (numInsts d)).flatMap (fun j =>
      if i < j then
        (get_source_registers d i).filterMap (fun r =>
          if get_destination_register d j ≠ [] ∧ r = get_destination_register d j
          then some ⟨i, j, r⟩ else none)
      else []))

/-- The WAW relation as the specification states it: a record `(i, j, r)`
exactly when `i < j`, both destinations are present, and they equal `r`. -/
def WAW_spec (d : Dependency_Identifier) : List DepRecord :=
  (List.range (numInsts d)).flatMap (fun i =>
    (List.range (numInsts d)).flatMap (fun j =>
      if i < j then
        if get_destination_register d i ≠ [] ∧ get_destination_register d j ≠ []
           ∧ get_destination_register d i = get_destination_register d j
        then [⟨i, j, get_destination_register d i⟩] else []
      else []))

/-- Which of the three scan member functions is invoked. -/
inductive ScanKind
  | raw
  | war
  | waw
deriving DecidableEq

/-- One invocation of a scan member function on the object.  The C++
method bodies read `parsed_instructions`, `_instructions` and
`operand_map` but assign to no member, so the post-state of the object
is the pre-state. -/
def runScan : ScanKind → Dependency_Identifier → ScanOutput × Dependency_Identifier
  | ScanKind.raw, d => (find_RAW_dependencies d, d)
  | ScanKind.war, d => (find_WAR_dependencies d, d)
  | ScanKind.waw, d => (find_WAW_dependencies d, d)

/-- A sequence of scan invocations on the same object, each one running
on the state the previous one left behind: the outputs in order, and the
final state. -/
def runScans : List ScanKind → Dependency_Identifier → List ScanOutput × Dependency_Identifier
  | [], d => ([], d)
  | k :: ks, d =>
    let od := runScan k d
    let rest := runScans ks od.2
    (od.1 :: rest.1, rest.2)

/-! ### Helper lemmas -/

theorem flatMap_ext {α β : Type} {l : List α} {f g : α → List β}
    (h : ∀ x ∈ l, f x = g x) : l.flatMap f = l.flatMap g := by
  induction l with
  | nil => rfl
  | cons a l ih =>
    simp only [List.flatMap_cons]
    rw [h a (List.mem_cons_self a l), ih (fun x hx => h x (List.mem_cons_of_mem a hx))]

theorem filterMap_ext {α β : Type} {l : List α} {f g : α → Option β}
    (h : ∀ x ∈ l, f x = g x) : l.filterMap f = l.filterMap g := by
  induction l with
  | nil => rfl
  | cons a l ih =>
    rw [List.filterMap_cons, List.filterMap_cons,
      h a (List.mem_cons_self a l), ih (fun x hx => h x (List.mem_cons_of_mem a hx))]

/-- A guarded traversal of `range n` below the bound `i` is the loop
`for (j = i+1; j < n; ++j)`. -/
theorem flatMap_range_guard {α : Type} (i : Nat) (f : Nat → List α) (n : Nat) :
    (List.range n).flatMap (fun j => if i < j then f j else [])
      = (List.range' (i + 1) (n - (i + 1))).flatMap f := by
  induction n with
  | zero => simp
  | succ n ih =>
    rw [List.range_succ, List.flatMap_append, ih]
    by_cases h : i < n
    · have h1 : n + 1 - (i + 1) = (n - (i + 1)) + 1 := by omega
      rw [h1, List.range'_1_concat, List.flatMap_append]
      have h2 : i + 1 + (n - (i + 1)) = n := by omega
      rw [h2]
      simp [h]
    · have h1 : n + 1 - (i + 1) = n - (i + 1) := by omega
      rw [h1]
      simp [h]

theorem RAW_records_eq_spec (d : Dependency_Identifier) :
    RAW_records d = RAW_spec d := by
  unfold RAW_records RAW_spec
  apply flatMap_ext
  intro i _
  rw [flatMap_range_guard i _ (numInsts d)]
  by_cases h : get_destination_register d i = []
  · simp only [h, List.isEmpty_nil, if_true]
    symm
    rw [List.flatMap_eq_nil_iff]
    intro j _
    rw [List.filterMap_eq_nil_iff]
    intro r _
    simp [h]
  · simp only [List.isEmpty_eq_true, h, if_false]
    apply flatMap_ext
    intro j _
    apply filterMap_ext
    intro r _
    by_cases hr : r = get_destination_register d i
    · simp [hr, h]
    · simp [hr]

theorem WAR_records_eq_spec (d : Dependency_Identifier) :
    WAR_records d = WAR_spec d := by
  unfold WAR_records WAR_spec
  apply flatMap_ext
  intro i _
  rw [flatMap_range_guard i _ (numInsts d)]
  by_cases h : get_source_registers d i = []
  · simp only [h, List.isEmpty_nil, if_true]
    symm
    rw [List.flatMap_eq_nil_iff]
    intro j _
    simp [h]
  · simp only [List.isEmpty_eq_true, h, if_false]
    apply flatMap_ext
    intro j _
    by_cases hj : get_destination_register d j = []
    · simp only [hj, List.isEmpty_nil, if_true]
      symm
      rw [List.filterMap_eq_nil_iff]
      intro r _
      simp [hj]
    · simp only [List.isEmpty_eq_true, hj, if_false]
      apply filterMap_ext
      intro r _
      by_cases hr : r = get_destination_register d j
      · simp [hr, hj]
      · simp [hr]

theorem WAW_records_eq_spec (d : Dependency_Identifier) :
    WAW_records d = WAW_spec d := by
  unfold WAW_records WAW_spec
  apply flatMap_ext
  intro i _
  rw [flatMap_range_guard i _ (numInsts d)]
  by_cases h : get_destination_register d i = []
  · simp only [h, List.isEmpty_nil, if_true]
    symm
    rw [List.flatMap_eq_nil_iff]
    intro j _
    simp [h]
  · simp only [List.isEmpty_eq_true, h, if_false]
    apply flatMap_ext
    intro j _
    by_cases hij : get_destination_register d i = get_destination_register d j
    · have hj : get_destination_register d j ≠ [] := hij ▸ h
      simp [hij, h, hj]
    · simp [hij, h]

theorem find_RAW_records_eq (d : Dependency_Identifier) :
    (find_RAW_dependencies d).records = RAW_spec d := by
  unfold find_RAW_dependencies
  by_cases h : d.parsed_instructions.isEmpty = true
  · have h0 : numInsts d = 0 := by
      simp only [numInsts, List.isEmpty_eq_true.mp h, List.length_nil]
    simp [h, RAW_spec, h0]
  · simp [h, RAW_records_eq_spec]

theorem find_WAR_records_eq (d : Dependency_Identifier) :
    (find_WAR_dependencies d).records = WAR_spec d := by
  unfold find_WAR_dependencies
  by_cases h : d.parsed_instructions.isEmpty = true
  · have h0 : numInsts d = 0 := by
      simp only [numInsts, List.isEmpty_eq_true.mp h, List.length_nil]
    simp [h, WAR_spec, h0]
  · simp [h, WAR_records_eq_spec]

theorem find_WAW_records_eq (d : Dependency_Identifier) :
    (find_WAW_dependencies d).records = WAW_spec d := by
  unfold find_WAW_dependencies
  by_cases h : d.parsed_instructions.isEmpty = true
  · have h0 : numInsts d = 0 := by
      simp only [numInsts, List.isEmpty_eq_true.mp h, List.length_nil]
    simp [h, WAW_spec, h0]
  · simp [h, WAW_records_eq_spec]

theorem mem_RAW_spec {d : Dependency_Identifier} {r : DepRecord}
    (hr : r ∈ RAW_spec d) :
    r.earlier < r.later ∧ r.later < numInsts d ∧
    get_destination_register d r.earlier ≠ [] ∧
    r.reg = get_destination_register d r.earlier ∧
    r.reg ∈ get_source_registers d r.later := by
  unfold RAW_spec at hr
  simp only [List.mem_flatMap, List.mem_range] at hr
  obtain ⟨i, hi, j, hj, hm⟩ := hr
  by_cases hij : i < j
  · rw [if_pos hij, List.mem_filterMap] at hm
    obtain ⟨s, hs, heq⟩ := hm
    by_cases hc : get_destination_register d i ≠ [] ∧ s = get_destination_register d i
    · rw [if_pos hc, Option.some_inj] at heq
      subst heq
      exact ⟨hij, hj, hc.1, hc.2, hs⟩
    · rw [if_neg hc] at heq
      cases heq
  · rw [if_neg hij] at hm
    cases hm

theorem mem_WAR_spec {d : Dependency_Identifier} {r : DepRecord}
    (hr : r ∈ WAR_spec d) :
    r.earlier < r.later ∧ r.later < numInsts d ∧
    r.reg ∈ get_source_registers d r.earlier ∧
    get_destination_register d r.later ≠ [] ∧
    r.reg = get_destination_register d r.later := by
  unfold WAR_spec at hr
  simp only [List.mem_flatMap, List.mem_range] at hr
  obtain ⟨i, hi, j, hj, hm⟩ := hr
  by_cases hij : i < j
  · rw [if_pos hij, List.mem_filterMap] at hm
    obtain ⟨s, hs, heq⟩ := hm
    by_cases hc : get_destination_register d j ≠ [] ∧ s = get_destination_register d j
    · rw [if_pos hc, Option.some_inj] at heq
      subst heq
      exact ⟨hij, hj, hs, hc.1, hc.2⟩
    · rw [if_neg hc] at heq
      cases heq
  · rw [if_neg hij] at hm
    cases hm

theorem mem_WAW_spec {d : Dependency_Identifier} {r : DepRecord}
    (hr : r ∈ WAW_spec d) :
    r.earlier < r.later ∧ r.later < numInsts d ∧
    get_destination_register d r.earlier ≠ [] ∧
    get_destination_register d r.later ≠ [] ∧
    r.reg = get_destination_register d r.earlier ∧
    get_destination_register d r.earlier = get_destination_register d r.later := by
  unfold WAW_spec at hr
  simp only [List.mem_flatMap, List.mem_range] at hr
  obtain ⟨i, hi, j, hj, hm⟩ := hr
  by_cases hij : i < j
  · rw [if_pos hij] at hm
    by_cases hc : get_destination_register d i ≠ [] ∧ get_destination_register d j ≠ []
        ∧ get_destination_register d i = get_destination_register d j
    · rw [if_pos hc, List.mem_singleton] at hm
      subst hm
      exact ⟨hij, hj, hc.1, hc.2.1, rfl, hc.2.2⟩
    · rw [if_neg hc] at hm
      cases hm
  · rw [if_neg hij] at hm
    cases hm

/-! ### Claim theorems -/

/-- C1: for every scanner, the RAW scan emits a record `(i, j, r)` exactly
when `i < j`, the destination register of instruction `i` is present and
equals `r` by exact string equality, and `r` occupies a configured source
slot of instruction `j`; one record per matching source slot, in
ascending `i`, then ascending `j`, then slot-declaration order — stated
as equality with the specification-side enumeration `RAW_spec`, together
with the two-slot example: a register read through two slots of `j`
yields two records. -/
theorem RAW_scan_spec_equivalence :
    (∀ d : Dependency_Identifier, (find_RAW_dependencies d).records = RAW_spec d)
    ∧ (find_RAW_dependencies (Dependency_Identifier.init
        ["ADD R1, R2, R3".data, "ADD R4, R1, R1".data])).records
      = [⟨0, 1, "R1".data⟩, ⟨0, 1, "R1".data⟩] :=
  ⟨find_RAW_records_eq, by decide⟩

/-- C2: for every scanner, the WAR scan emits a record `(i, j, r)` exactly
when `i < j`, `r` is among the source registers of instruction `i`, and
instruction `j` has a present destination register equal to `r` by exact
string equality; one record per matching source slot of `i`, in ascending
`i`, then ascending `j`, then slot-declaration order — stated as equality
with the specification-side enumeration `WAR_spec`, together with the
spec's WAR test vector. -/
theorem WAR_scan_spec_equivalence :
    (∀ d : Dependency_Identifier, (find_WAR_dependencies d).records = WAR_spec d)
    ∧ (find_WAR_dependencies (Dependency_Identifier.init
        ["ADD R1, R2, R3".data, "SUB R2, R4, R5".data])).records
      = [⟨0, 1, "R2".data⟩] :=
  ⟨find_WAR_records_eq, by decide⟩

/-- C3: for every scanner, the WAW scan emits a record `(i, j, r)` exactly
when `i < j` and both instructions have a present destination register and
the two destinations are textually equal to `r` — stated as equality with
the specification-side enumeration `WAW_spec`; in particular every emitted
record has `earlier < later` (no reversed pair, no self-pair) and both
sides have a present destination, and the spec's WAW test vector holds. -/
theorem WAW_scan_spec_equivalence :
    (∀ d : Dependency_Identifier, (find_WAW_dependencies d).records = WAW_spec d)
    ∧ (∀ d : Dependency_Identifier, ∀ r ∈ (find_WAW_dependencies d).records,
        r.earlier < r.later ∧
        get_destination_register d r.earlier ≠ [] ∧
        get_destination_register d r.later ≠ [])
    ∧ (find_WAW_dependencies (Dependency_Identifier.init
        ["ADD R1, R2, R3".data, "MUL R1, R4, R5".data])).records
      = [⟨0, 1, "R1".data⟩] := by
  refine ⟨find_WAW_records_eq, ?_, by decide⟩
  intro d r hr
  rw [find_WAW_records_eq] at hr
  have h := mem_WAW_spec hr
  exact ⟨h.1, h.2.2.1, h.2.2.2.1⟩

theorem WAW_scan_spec_equivalence_witness :
    (DepRecord.mk 0 1 "R1".data).earlier < (DepRecord.mk 0 1 "R1".data).later ∧
    get_destination_register (Dependency_Identifier.init
      ["ADD R1, R2, R3".data, "MUL R1, R4, R5".data])
      (DepRecord.mk 0 1 "R1".data).earlier ≠ [] ∧
    get_destination_register (Dependency_Identifier.init
      ["ADD R1, R2, R3".data, "MUL R1, R4, R5".data])
      (DepRecord.mk 0 1 "R1".data).later ≠ [] :=
  WAW_scan_spec_equivalence.2.1
    (Dependency_Identifier.init ["ADD R1, R2, R3".data, "MUL R1, R4, R5".data])
    (DepRecord.mk 0 1 "R1".data) (by decide)

/-- C8: a scanner constructed with zero instructions makes each of the
three scans emit exactly the "no instructions to analyze" message and
zero dependency records. -/
theorem empty_input_reports_no_instructions :
    find_RAW_dependencies (Dependency_Identifier.init []) = ⟨true, []⟩
    ∧ find_WAR_dependencies (Dependency_Identifier.init []) = ⟨true, []⟩
    ∧ find_WAW_dependencies (Dependency_Identifier.init []) = ⟨true, []⟩ := by
  decide

/-- C9: the three scans are deterministic and mutation-free: any sequence
of scan invocations, in any interleaving, leaves the scanner's state
(stored instructions, parsed instructions; the opcode table is a global
constant) unchanged, and each invocation's output equals the output of
that scan on the initial scanner — so repeated runs of the same scan, in
any interleaving with the other two, give identical output in identical
order. -/
theorem scans_pure_and_deterministic :
    ∀ (ks : List ScanKind) (d : Dependency_Identifier),
      runScans ks d = (ks.map (fun k => (runScan k d).1), d) := by
  intro ks
  induction ks with
  | nil => intro d; rfl
  | cons k ks ih =>
    intro d
    have h2 : (runScan k d).2 = d := by cases k <;> rfl
    simp only [runScans, List.map_cons]
    rw [h2, ih d]

/-! ### Tokenizer well-formedness -/

theorem cppIsSpace_of_isTrimChar {a : Char} (h : isTrimChar a = true) :
    cppIsSpace a = true := by
  simp only [isTrimChar, Bool.or_eq_true, decide_eq_true_eq] at h
  rcases h with ((h | h) | h) | h <;> subst h <;> decide

theorem dropWhile_trimChar_eq_self {l : Str} (h : ∀ c ∈ l, cppIsSpace c = false) :
    l.dropWhile isTrimChar = l := by
  cases l with
  | nil => rfl
  | cons a l =>
    have ha : isTrimChar a = false := by
      cases hta : isTrimChar a with
      | false => rfl
      | true =>
        have := cppIsSpace_of_isTrimChar hta
        rw [h a (List.mem_cons_self a l)] at this
        cases this
    simp [List.dropWhile_cons, ha]

theorem trim_eq_self {t : Str} (h : ∀ c ∈ t, cppIsSpace c = false) : trim t = t := by
  unfold trim
  rw [dropWhile_trimChar_eq_self h]
  by_cases ht : t.isEmpty = true
  · rw [if_pos ht]
  · rw [if_neg ht,
      dropWhile_trimChar_eq_self (fun c hc => h c (List.mem_reverse.mp hc)),
      List.reverse_reverse]

theorem isDelim_replaceDelims {s : Str} {c : Char} (h : c ∈ replaceDelims s) :
    isDelim c = false := by
  unfold replaceDelims at h
  rw [List.mem_map] at h
  obtain ⟨a, _, ha⟩ := h
  cases hda : isDelim a with
  | true => simp only [hda, if_true] at ha; subst ha; decide
  | false => simp only [hda, if_false] at ha; subst ha; exact hda

theorem splitWsAux_tokens : ∀ (s acc : Str),
    (∀ c ∈ acc, cppIsSpace c = false ∧ isDelim c = false) →
    (∀ c ∈ s, isDelim c = false) →
    ∀ t ∈ splitWsAux s acc, t ≠ [] ∧ ∀ c ∈ t, cppIsSpace c = false ∧ isDelim c = false
  | [], acc, hacc, _, t, ht => by
    unfold splitWsAux at ht
    by_cases ha : acc.isEmpty = true
    · rw [if_pos ha] at ht
      cases ht
    · rw [if_neg ha] at ht
      rw [List.mem_singleton] at ht
      subst ht
      refine ⟨?_, fun c hc => hacc c (List.mem_reverse.mp hc)⟩
      intro hnil
      apply ha
      rw [List.isEmpty_eq_true]
      simpa using congrArg List.reverse hnil
  | c :: rest, acc, hacc, hs, t, ht => by
    unfold splitWsAux at ht
    by_cases hsp : cppIsSpace c = true
    · rw [if_pos hsp] at ht
      by_cases ha : acc.isEmpty = true
      · rw [if_pos ha] at ht
        exact splitWsAux_tokens rest [] (fun c hc => absurd hc (List.not_mem_nil c))
          (fun c hc => hs c (List.mem_cons_of_mem _ hc)) t ht
      · rw [if_neg ha] at ht
        rcases List.mem_cons.mp ht with h | h
        · subst h
          refine ⟨?_, fun c' hc' => hacc c' (List.mem_reverse.mp hc')⟩
          intro hnil
          apply ha
          rw [List.isEmpty_eq_true]
          simpa using congrArg List.reverse hnil
        · exact splitWsAux_tokens rest [] (fun c hc => absurd hc (List.not_mem_nil c))
            (fun c hc => hs c (List.mem_cons_of_mem _ hc)) t h
    · rw [if_neg hsp] at ht
      refine splitWsAux_tokens rest (c :: acc) ?_
        (fun c hc => hs c (List.mem_cons_of_mem _ hc)) t ht
      intro c' hc'
      rcases List.mem_cons.mp hc' with h | h
      · subst h
        exact ⟨Bool.eq_false_iff.mpr hsp, hs c' (List.mem_cons_self _ _)⟩
      · exact hacc c' h

/-- C4 counterexample: the input `"FOO R1"` contains no recognizable
opcode — no token of it occurs in the opcode table — yet `tokenize`
yields the non-empty sequence `["FOO", "R1"]`, not the empty sequence
the claim asserts for such inputs. -/
theorem tokenize_unknown_opcode_nonempty :
    (∀ t ∈ parse_instruction "FOO R1".data, operand_map (to_upper t) = none)
    ∧ parse_instruction "FOO R1".data = ["FOO".data, "R1".data]
    ∧ parse_instruction "FOO R1".data ≠ [] := by
  decide

/-- C4 (amended): `tokenize` replaces each of the four delimiter
characters with a single space and splits on runs of whitespace with
each token trimmed — so `"LD R1, 0(R2)"` and `"BEQ R1,R2,LABEL"` give
the expected token sequences, the empty input gives the empty sequence,
and every produced token is non-empty and free of whitespace and
delimiter characters (an input with no recognizable opcode still
tokenizes to its tokens; only operand classification degrades, and no
error is raised). -/
theorem tokenize_behavior :
    parse_instruction "LD R1, 0(R2)".data
      = ["LD".data, "R1".data, "0".data, "R2".data]
    ∧ parse_instruction "BEQ R1,R2,LABEL".data
      = ["BEQ".data, "R1".data, "R2".data, "LABEL".data]
    ∧ parse_instruction [] = []
    ∧ (∀ s : Str, ∀ t ∈ parse_instruction s,
        t ≠ [] ∧ ∀ c ∈ t, cppIsSpace c = false ∧ isDelim c = false) := by
  refine ⟨by decide, by decide, rfl, ?_⟩
  intro s t ht
  unfold parse_instruction at ht
  rw [List.mem_map] at ht
  obtain ⟨t0, ht0, rfl⟩ := ht
  have hwf := splitWsAux_tokens (replaceDelims s) []
    (fun c hc => absurd hc (List.not_mem_nil c))
    (fun c hc => isDelim_replaceDelims hc) t0 ht0
  rw [trim_eq_self (fun c hc => (hwf.2 c hc).1)]
  exact hwf

theorem tokenize_behavior_witness :
    "LD".data ≠ [] ∧ ∀ c ∈ "LD".data, cppIsSpace c = false ∧ isDelim c = false :=
  tokenize_behavior.2.2.2 "LD R1, 0(R2)".data "LD".data (by decide)

/-! ### Operand classification -/

theorem isEmpty_false_of_opcode {parts : List Str} {e : Nat × List Nat}
    (h : operand_map (to_upper (parts.getD 0 [])) = some e) :
    parts.isEmpty = false := by
  cases parts with
  | nil =>
    have hn : operand_map (to_upper (List.getD ([] : List Str) 0 [])) = none := by
      decide
    rw [hn] at h
    cases h
  | cons _ _ => rfl

theorem getD_mem_of_lt {l : List Str} {n : Nat} (h : n < l.length) :
    l.getD n [] ∈ l := by
  rw [List.getD_eq_getElem?_getD, List.getElem?_eq_getElem h]
  exact List.getElem_mem h

theorem filterMap_if_eq_filter_map {α β : Type} (l : List α) (p : α → Prop)
    [DecidablePred p] (f : α → β) :
    l.filterMap (fun x => if p x then some (f x) else none)
      = (l.filter (fun x => decide (p x))).map f := by
  induction l with
  | nil => rfl
  | cons a l ih =>
    by_cases hp : p a <;> simp [List.filterMap_cons, List.filter_cons, hp, ih]

/-- C5: for every token sequence, the destination register is computed by
looking up the uppercased token 0 in the opcode table; it is absent
(the empty string) when the opcode is unknown, when the table's
destination index is `0` ("none"), or when that index is out of bounds,
and otherwise it is the token at the destination index verbatim — in
particular `"ADD R1, R2, R3"` gives `"R1"`, `"add r1, R2, R3"` gives
`"r1"` (opcode matching case-insensitive, register returned without case
normalization), and `"SD R1, 0(R3)"` gives none. -/
theorem destination_register_characterization :
    (∀ parts : List Str,
      (operand_map (to_upper (parts.getD 0 [])) = none → dest_of_parts parts = [])
      ∧ (∀ di srcs, operand_map (to_upper (parts.getD 0 [])) = some (di, srcs) →
          (di = 0 → dest_of_parts parts = [])
          ∧ (parts.length ≤ di → dest_of_parts parts = [])
          ∧ (0 < di → di < parts.length →
              dest_of_parts parts = parts.getD di [])))
    ∧ dest_of_parts (parse_instruction "ADD R1, R2, R3".data) = "R1".data
    ∧ dest_of_parts (parse_instruction "add r1, R2, R3".data) = "r1".data
    ∧ dest_of_parts (parse_instruction "SD R1, 0(R3)".data) = [] := by
  refine ⟨?_, by decide, by decide, by decide⟩
  intro parts
  constructor
  · intro hnone
    unfold dest_of_parts
    by_cases hp : parts.isEmpty = true
    · rw [if_pos hp]
    · rw [if_neg hp, hnone]
  · intro di srcs hsome
    have hne : parts.isEmpty = false := isEmpty_false_of_opcode hsome
    refine ⟨?_, ?_, ?_⟩
    · intro h0
      subst h0
      simp only [dest_of_parts, hne, Bool.false_eq_true, if_false, hsome]
      rw [if_neg (fun hc => Nat.lt_irrefl 0 hc.1)]
    · intro hlen
      have hnl : ¬ di < parts.length := Nat.not_lt.mpr hlen
      simp only [dest_of_parts, hne, Bool.false_eq_true, if_false, hsome]
      rw [if_neg (fun hc => hnl hc.2)]
    · intro h0 hlt
      simp only [dest_of_parts, hne, Bool.false_eq_true, if_false, hsome]
      rw [if_pos ⟨h0, hlt⟩]

theorem destination_register_characterization_witness :
    dest_of_parts (parse_instruction "ADD R1, R2, R3".data)
      = (parse_instruction "ADD R1, R2, R3".data).getD 1 [] :=
  ((destination_register_characterization.1
      (parse_instruction "ADD R1, R2, R3".data)).2 1 [2, 3]
    (by decide)).2.2 (by decide) (by decide)

/-- C6: for every token sequence, the source registers are, in the opcode
table's declared slot order, the tokens at the configured source slots
whose indices are in bounds, out-of-bounds slots being silently skipped —
in particular `"SD R1, 0(R3)"` gives `["R1", "R3"]` (slots 1 and 3,
skipping the address-offset token) and `"LD R1, 0(R2)"` gives `[]` (LD
declares no source slots). -/
theorem source_registers_characterization :
    (∀ parts : List Str,
      (operand_map (to_upper (parts.getD 0 [])) = none → src_of_parts parts = [])
      ∧ (∀ di srcs, operand_map (to_upper (parts.getD 0 [])) = some (di, srcs) →
          src_of_parts parts
            = (srcs.filter (fun k => decide (0 < k ∧ k < parts.length))).map
                (fun k => parts.getD k [])))
    ∧ src_of_parts (parse_instruction "SD R1, 0(R3)".data) = ["R1".data, "R3".data]
    ∧ src_of_parts (parse_instruction "LD R1, 0(R2)".data) = [] := by
  refine ⟨?_, by decide, by decide⟩
  intro parts
  constructor
  · intro hnone
    unfold src_of_parts
    by_cases hp : parts.isEmpty = true
    · rw [if_pos hp]
    · rw [if_neg hp, hnone]
  · intro di srcs hsome
    have hne : parts.isEmpty = false := isEmpty_false_of_opcode hsome
    simp only [src_of_parts, hne, Bool.false_eq_true, if_false, hsome]
    exact filterMap_if_eq_filter_map srcs _ _

theorem source_registers_characterization_witness :
    src_of_parts (parse_instruction "SD R1, 0(R3)".data)
      = (([1, 3].filter (fun k =>
            decide (0 < k ∧ k < (parse_instruction "SD R1, 0(R3)".data).length))).map
          (fun k => (parse_instruction "SD R1, 0(R3)".data).getD k [])) :=
  (source_registers_characterization.1
    (parse_instruction "SD R1, 0(R3)".data)).2 0 [1, 3] (by decide)

/-- C7: an instruction whose (uppercased) opcode is not in the opcode
table contributes no destination register and no source registers, never
appears as either side of any RAW, WAR or WAW record, and still occupies
its program-order index (the parsed sequence keeps the input length, so
records between other instructions keep their indices). -/
theorem unknown_opcode_invisibility (insts : List Str) (k : Nat) (inst : Str)
    (hmem : insts.get? k = some inst)
    (hop : operand_map (to_upper ((parse_instruction inst).getD 0 [])) = none) :
    get_destination_register (Dependency_Identifier.init insts) k = []
    ∧ get_source_registers (Dependency_Identifier.init insts) k = []
    ∧ numInsts (Dependency_Identifier.init insts) = insts.length
    ∧ (∀ r ∈ (find_RAW_dependencies (Dependency_Identifier.init insts)).records,
        r.earlier ≠ k ∧ r.later ≠ k)
    ∧ (∀ r ∈ (find_WAR_dependencies (Dependency_Identifier.init insts)).records,
        r.earlier ≠ k ∧ r.later ≠ k)
    ∧ (∀ r ∈ (find_WAW_dependencies (Dependency_Identifier.init insts)).records,
        r.earlier ≠ k ∧ r.later ≠ k) := by
  have hparsed : (Dependency_Identifier.init insts).parsed_instructions.get? k
      = some (parse_instruction inst) := by
    show (insts.map parse_instruction).get? k = _
    rw [List.get?_eq_getElem?, List.getElem?_map, ← List.get?_eq_getElem?, hmem]
    rfl
  have hdest : get_destination_register (Dependency_Identifier.init insts) k = [] := by
    unfold get_destination_register
    rw [hparsed]
    show dest_of_parts (parse_instruction inst) = []
    unfold dest_of_parts
    by_cases hp : (parse_instruction inst).isEmpty = true
    · rw [if_pos hp]
    · rw [if_neg hp, hop]
  have hsrc : get_source_registers (Dependency_Identifier.init insts) k = [] := by
    unfold get_source_registers
    rw [hparsed]
    show src_of_parts (parse_instruction inst) = []
    unfold src_of_parts
    by_cases hp : (parse_instruction inst).isEmpty = true
    · rw [if_pos hp]
    · rw [if_neg hp, hop]
  refine ⟨hdest, hsrc, by simp [Dependency_Identifier.init, numInsts], ?_, ?_, ?_⟩
  · intro r hr
    rw [find_RAW_records_eq] at hr
    have h := mem_RAW_spec hr
    constructor
    · intro he
      rw [he] at h
      exact h.2.2.1 hdest
    · intro hl
      rw [hl] at h
      have hm := h.2.2.2.2
      rw [hsrc] at hm
      cases hm
  · intro r hr
    rw [find_WAR_records_eq] at hr
    have h := mem_WAR_spec hr
    constructor
    · intro he
      rw [he] at h
      have hm := h.2.2.1
      rw [hsrc] at hm
      cases hm
    · intro hl
      rw [hl] at h
      exact h.2.2.2.1 hdest
  · intro r hr
    rw [find_WAW_records_eq] at hr
    have h := mem_WAW_spec hr
    constructor
    · intro he
      rw [he] at h
      exact h.2.2.1 hdest
    · intro hl
      rw [hl] at h
      exact h.2.2.2.1 hdest

theorem unknown_opcode_invisibility_witness :
    get_destination_register (Dependency_Identifier.init
      ["ADD R1, R2, R3".data, "FOO R9".data]) 1 = []
    ∧ get_source_registers (Dependency_Identifier.init
      ["ADD R1, R2, R3".data, "FOO R9".data]) 1 = []
    ∧ numInsts (Dependency_Identifier.init
      ["ADD R1, R2, R3".data, "FOO R9".data])
      = (["ADD R1, R2, R3".data, "FOO R9".data] : List Str).length
    ∧ (∀ r ∈ (find_RAW_dependencies (Dependency_Identifier.init
        ["ADD R1, R2, R3".data, "FOO R9".data])).records,
        r.earlier ≠ 1 ∧ r.later ≠ 1)
    ∧ (∀ r ∈ (find_WAR_dependencies (Dependency_Identifier.init
        ["ADD R1, R2, R3".data, "FOO R9".data])).records,
        r.earlier ≠ 1 ∧ r.later ≠ 1)
    ∧ (∀ r ∈ (find_WAW_dependencies (Dependency_Identifier.init
        ["ADD R1, R2, R3".data, "FOO R9".data])).records,
        r.earlier ≠ 1 ∧ r.later ≠ 1) :=
  unknown_opcode_invisibility ["ADD R1, R2, R3".data, "FOO R9".data] 1
    "FOO R9".data (by decide) (by decide)

theorem dest_of_parts_mem {parts : List Str} {r : Str}
    (hr : dest_of_parts parts = r) (h : r ≠ []) : r ∈ parts := by
  unfold dest_of_parts at hr
  split at hr
  · exact absurd hr.symm h
  · split at hr
    · split at hr
      · next hc =>
        subst hr
        exact getD_mem_of_lt hc.2
      · exact absurd hr.symm h
    · exact absurd hr.symm h

theorem src_of_parts_mem {parts : List Str} {s : Str}
    (hs : s ∈ src_of_parts parts) : s ∈ parts := by
  unfold src_of_parts at hs
  split at hs
  · cases hs
  · split at hs
    · rw [List.mem_filterMap] at hs
      obtain ⟨k, _, hif⟩ := hs
      split at hif
      · next hc =>
        rw [Option.some_inj] at hif
        subst hif
        exact getD_mem_of_lt hc.2
      · cases hif
    · cases hs

/-- C10: the two operand accessors are total and bounds-safe: for every
index at or beyond the number of instructions, and for every instruction
whose token list is empty, they return the empty string / empty sequence;
and every register they return is an element of the instruction's own
token list, i.e. was read through an in-bounds index (position 0, the
destination index, and each source index are all guarded). -/
theorem operand_access_safety (d : Dependency_Identifier) (i : Nat) :
    (numInsts d ≤ i →
      get_destination_register d i = [] ∧ get_source_registers d i = [])
    ∧ (d.parsed_instructions.get? i = some [] →
      get_destination_register d i = [] ∧ get_source_registers d i = [])
    ∧ (get_destination_register d i ≠ [] →
      ∃ parts, d.parsed_instructions.get? i = some parts ∧
        get_destination_register d i ∈ parts)
    ∧ (∀ s ∈ get_source_registers d i,
      ∃ parts, d.parsed_instructions.get? i = some parts ∧ s ∈ parts) := by
  refine ⟨?_, ?_, ?_, ?_⟩
  · intro hge
    have hnone : d.parsed_instructions.get? i = none :=
      List.get?_eq_none.mpr hge
    unfold get_destination_register get_source_registers
    rw [hnone]
    exact ⟨rfl, rfl⟩
  · intro hsome
    unfold get_destination_register get_source_registers
    rw [hsome]
    exact ⟨rfl, rfl⟩
  · intro hne
    unfold get_destination_register at hne ⊢
    cases hq : d.parsed_instructions.get? i with
    | none => rw [hq] at hne; exact absurd rfl hne
    | some parts =>
      rw [hq] at hne
      exact ⟨parts, rfl, dest_of_parts_mem rfl hne⟩
  · intro s hs
    unfold get_source_registers at hs
    cases hq : d.parsed_instructions.get? i with
    | none => rw [hq] at hs; cases hs
    | some parts =>
      rw [hq] at hs
      exact ⟨parts, rfl, src_of_parts_mem hs⟩

theorem operand_access_safety_witness :
    get_destination_register (Dependency_Identifier.init ["ADD R1, R2, R3".data]) 5 = []
    ∧ get_source_registers (Dependency_Identifier.init ["ADD R1, R2, R3".data]) 5 = [] :=
  (operand_access_safety (Dependency_Identifier.init ["ADD R1, R2, R3".data]) 5).1
    (by decide)
